import Mathlib

/-!
Shallow embedding of `src/wiring.py` of the VHDLViz repository: the
connectivity-graph ("wiring") core.  Python strings are modelled as `List Char`
(ASCII in all inputs of interest); Python dicts, which iterate in insertion
order and keep a key's position on overwrite, are modelled as association
lists with an in-place-update `dictSet` and a first-match `dictGet?`.
-/

namespace VHDLViz

/-- Python `str` modelled as a list of characters. -/
abbrev Str := List Char

/-- Python truthiness-based `or` on strings: `a or b` is `b` when `a` is empty. -/
def strOr (a b : Str) : Str := if a = [] then b else a

/-- Python `or` over optional strings (`None` and `""` are falsy). -/
def pyOr (a b : Option Str) : Option Str :=
  match a with
  | some s => if s = [] then b else some s
  | none => b

/-- Python `x or y or d` for two optional strings with a string default. -/
def pyOrD (a b : Option Str) (d : Str) : Str :=
  match pyOr a b with
  | some s => if s = [] then d else s
  | none => d

/-- Python `str.strip()`: remove leading and trailing whitespace. -/
def pyStrip (s : Str) : Str :=
  ((s.dropWhile Char.isWhitespace).reverse.dropWhile Char.isWhitespace).reverse

/-- Python `str.lower()` (ASCII behaviour). -/
def strLower (s : Str) : Str := s.map Char.toLower

/-- Python `str.isidentifier()` restricted to ASCII:
`[A-Za-z_][A-Za-z0-9_]*`. -/
def isIdent (s : Str) : Bool :=
  match s with
  | [] => false
  | c :: cs => (c.isAlpha || c = '_') && cs.all (fun d => d.isAlphanum || d = '_')

/-- Ordered-dict lookup: value of the first (unique) matching key. -/
def dictGet? {K V : Type} [DecidableEq K] (d : List (K × V)) (k : K) : Option V :=
  match d with
  | [] => none
  | (k1, v1) :: rest => if k1 = k then some v1 else dictGet? rest k

/-- Ordered-dict lookup with a default (Python `d.get(k, v0)`). -/
def dictGetD {K V : Type} [DecidableEq K] (d : List (K × V)) (k : K) (v0 : V) : V :=
  (dictGet? d k).getD v0

/-- Ordered-dict write `d[k] = v`: overwrite in place, else append
(Python dicts keep a key's original position on overwrite). -/
def dictSet {K V : Type} [DecidableEq K] (d : List (K × V)) (k : K) (v : V) :
    List (K × V) :=
  match d with
  | [] => [(k, v)]
  | (k1, v1) :: rest => if k1 = k then (k, v) :: rest else (k1, v1) :: dictSet rest k v

/-! ### `_strip_outer_parens` (wiring.py lines 4-15) -/

/-- The depth scan of `_strip_outer_parens`'s loop body: returns the final
depth, or `none` when the depth dips below zero (Python's `ok = False`). -/
def scanDepth : Str → Int → Option Int
  | [], d => some d
  | c :: cs, d =>
      if c = '(' then scanDepth cs (d + 1)
      else if c = ')' then
        if d - 1 < 0 then none else scanDepth cs (d - 1)
      else scanDepth cs d

/-- Guard of the stripping loop: text starts with `(`, ends with `)`, and the
scan never goes negative and finishes at depth 0 (`ok and depth == 0`). -/
def stripCond (t : Str) : Bool :=
  t.head? = some '(' && t.getLast? = some ')' && scanDepth t 0 = some 0

/-- One peel of the loop body: drop first and last characters, re-strip. -/
def stripPeel (t : Str) : Str := pyStrip ((t.drop 1).dropLast)

/-- Fuel-indexed loop of `_strip_outer_parens`; each iteration shortens the
text by at least two characters, so `t.length` fuel always suffices. -/
def stripAux : Nat → Str → Str
  | 0, t => t
  | fuel + 1, t => if stripCond t then stripAux fuel (stripPeel t) else t

/-- The stripping `while` loop, run with the always-sufficient fuel. -/
def stripLoop (t : Str) : Str := stripAux t.length t

/-- Embeds `_strip_outer_parens(s)` (wiring.py lines 4-15). -/
def _strip_outer_parens (s : Str) : Str := stripLoop (pyStrip s)

/-! ### `_split_base_slice` (wiring.py lines 17-23) -/

/-- Embeds `_split_base_slice(a)`: split `base(slice)` at the first `(` when the text
ends in `)` and the prefix is an identifier (wiring.py lines 17-23). -/
def _split_base_slice (a0 : Str) : Str × Option Str :=
  let a := pyStrip a0
  if a.contains '(' && a.getLast? = some ')' then
    let base := pyStrip (a.takeWhile (fun c => ¬ c = '('))
    let sl := pyStrip (((a.dropWhile (fun c => ¬ c = '(')).drop 1).dropLast)
    if isIdent base then (base, some sl) else (a, none)
  else (a, none)

/-! ### Data model (model.py, plus the dynamically attached `assignments`
list that `build_wiring` reads via `getattr(fi, "assignments", [])`; the
parser's `Assignment` objects carry `target`/`expr`, and callers may instead
supply dicts with keys `target`/`expr`/`kind`) -/

/-- model.py `Port`: name, raw direction string, raw subtype text. -/
structure Port where
  name : Str
  direction : Str
  dtype : Str
deriving DecidableEq, Repr

/-- model.py `Signal`. -/
structure SignalDecl where
  name : Str
  dtype : Str
deriving DecidableEq, Repr

/-- model.py `Instance`; `port_map` is the dict's item list (formal → actual,
unique formals, insertion order). -/
structure Inst where
  label : Str
  component_name : Option Str
  entity_ref : Option Str
  port_map : List (Str × Str)
deriving DecidableEq, Repr

/-- A concurrent-assignment record as consumed by `build_wiring`
(wiring.py lines 90-105): either an `Assignment` object with `target`/`expr`
attributes, or a dict with `target`/`expr` and an optional `kind`
(`a.get("kind","")` is `""` when the key is absent). -/
inductive Assign where
  | obj (target expr : Str)
  | dict (target expr kind : Str)
deriving DecidableEq, Repr

/-- The `target` field of an assignment (same access either way). -/
def Assign.target : Assign → Str
  | .obj t _ => t
  | .dict t _ _ => t

/-- The `expr` field of an assignment. -/
def Assign.expr : Assign → Str
  | .obj _ e => e
  | .dict _ e _ => e

/-- model.py `FileInfo` (the path field is never read by `build_wiring` and
is omitted), with the `assignments` attribute attached by the parser. -/
structure FileInfo where
  entity_name : Option Str
  ports : List Port
  signals : List SignalDecl
  instances : List Inst
  assignments : List Assign
deriving DecidableEq, Repr

/-- The `entity_port_db : Dict[str, Dict[str, Port]]` as ordered dict items. -/
abbrev EntityDb := List (Str × List (Str × Port))

/-! ### `_classify_actual` (wiring.py lines 25-44) -/

/-- The literal test of wiring.py line 35 on the lowered text: bare `0`/`1`,
or text starting with a quote, `x"` or `b"`. -/
def constForm (al : Str) : Bool :=
  al = "0".data || al = "1".data || al.head? = some '\'' ||
    al.head? = some '"' || al.take 2 = "x\"".data || al.take 2 = "b\"".data

/-- The `sig_names` set (wiring.py line 38): the unit's declared signal names. -/
def sigNames (fi : FileInfo) : List Str := fi.signals.map (fun s => s.name)

/-- The `eport_names` set (wiring.py line 39): the unit's declared port names. -/
def eportNames (fi : FileInfo) : List Str := fi.ports.map (fun p => p.name)

/-- Embeds `_classify_actual(actual, fi) -> (kind, display_label, base)`
(wiring.py lines 25-44).  Kinds are the literal strings the code uses. -/
def _classify_actual (actual : Str) (fi : FileInfo) : Str × Str × Option Str :=
  let a := _strip_outer_parens actual
  let al := strLower a
  if al = "open".data then ("open".data, a, none)
  else if constForm al then ("const".data, a, none)
  else
    let base := (_split_base_slice a).1
    if (sigNames fi).contains base then ("signal".data, a, some base)
    else if (eportNames fi).contains base then ("eport".data, a, some base)
    else ("expr".data, a, none)

/-! ### `build_wiring` (wiring.py lines 46-217) -/

/-- Net endpoint tags (wiring.py line 64):
`('entity', port) | ('inst', label, formal) | ('const', val) | ('expr', text)`. -/
inductive Endp where
  | entity (port : Str)
  | inst (label formal : Str)
  | const (val : Str)
  | expr (text : Str)
deriving DecidableEq, Repr

/-- A net record `{'base': base, 'eps': [(ep, label)]}` (wiring.py line 63). -/
structure Net where
  base : Str
  eps : List (Endp × Str)
deriving DecidableEq, Repr

/-- Net key `(kind, base)`. -/
abbrev NetKey := Str × Str

/-- The insertion-ordered `nets` dict. -/
abbrev Nets := List (NetKey × Net)

/-- Embeds `add_ep(kind, base, ep, label)` (wiring.py lines 67-71): create the net on
first touch, then append the endpoint; an existing net keeps its stored base
and its position. -/
def add_ep (nets : Nets) (kind base : Str) (ep : Endp) (label : Str) : Nets :=
  match dictGet? nets (kind, base) with
  | some nd => dictSet nets (kind, base) ⟨nd.base, nd.eps ++ [(ep, label)]⟩
  | none => nets ++ [((kind, base), ⟨base, [(ep, label)]⟩)]

/-- Per-instance resolved pin directions (wiring.py lines 54-59):
`{n: p.direction.lower()}` from the entity DB when the target (`entity_ref or
component_name`) is known, else the empty dict. -/
def instDirsFor (db : EntityDb) (inst : Inst) : List (Str × Str) :=
  match pyOr inst.entity_ref inst.component_name with
  | none => []
  | some ent =>
      if ent = [] then []
      else
        match dictGet? db ent with
        | some ports => ports.map (fun np => (np.1, strLower np.2.direction))
        | none => []

/-- The `inst_port_dirs` dict (wiring.py lines 53-59), keyed by instance label. -/
def instPortDirs (fi : FileInfo) (db : EntityDb) : List (Str × List (Str × Str)) :=
  fi.instances.foldl (fun d inst => dictSet d inst.label (instDirsFor db inst)) []

/-- The dict `eport_dirs` of `p.name` to `p.direction.lower()` (line 61). -/
def eportDirs (fi : FileInfo) : List (Str × Str) :=
  fi.ports.foldl (fun d p => dictSet d p.name (strLower p.direction)) []

/-- Folding one instance port-map binding into the nets (wiring.py 74-83). -/
def addActual (fi : FileInfo) (nets : Nets) (instLabel formal actual : Str) : Nets :=
  let r := _classify_actual actual fi
  let kind := r.1; let label := r.2.1; let base := r.2.2
  if kind = "open".data then nets
  else if (kind = "signal".data || kind = "eport".data) && base.isSome then
    add_ep nets kind (base.getD []) (.inst instLabel formal) label
  else if kind = "const".data then
    add_ep nets "const".data label (.inst instLabel formal) label
  else
    add_ep nets "expr".data label (.inst instLabel formal) label

/-- The driving-expression label of an assignment, with the dict form's
kind tag appended (wiring.py lines 96-104). -/
def assignTagged : Assign → Str
  | .obj _ e => e
  | .dict _ e k =>
      if k = "cond".data then e ++ "  -- conditional".data
      else if k = "select".data then e ++ "  -- with-select".data
      else if k = "proc".data then e ++ "  -- process".data
      else e

/-- Folding one concurrent assignment into the nets (wiring.py 90-105):
the target's base keys a `signal` net and the expression is its driver. -/
def addAssign (nets : Nets) (a : Assign) : Nets :=
  let tbase := (_split_base_slice a.target).1
  if tbase = [] then nets
  else add_ep nets "signal".data tbase (.expr (assignTagged a)) a.target

/-- The aggregated nets of a design unit (wiring.py 73-105): instance
port-map actuals, then top entity ports, then concurrent assignments. -/
def netsOf (fi : FileInfo) : Nets :=
  let n1 := fi.instances.foldl
    (fun ns inst => inst.port_map.foldl
      (fun ns fa => addActual fi ns inst.label fa.1 fa.2) ns) []
  let n2 := fi.ports.foldl
    (fun ns p => add_ep ns "eport".data p.name (.entity p.name) p.name) n1
  fi.assignments.foldl addAssign n2

/-- The endpoint `x` is recorded in the net keyed `K` of `nets`. -/
def EpIn (nets : Nets) (K : NetKey) (x : Endp × Str) : Prop :=
  ∃ nd, dictGet? nets K = some nd ∧ x ∈ nd.eps

/-- An output node (wiring.py 110-114); `inputs`/`outputs` are present only
on instance nodes. -/
structure Node where
  id : Str
  label : Str
  kind : Str
  inputs : Option (List Str)
  outputs : Option (List Str)
deriving DecidableEq, Repr

/-- Entity-port node (wiring.py 117-124). -/
def entityPortNode (ed : List (Str × Str)) (p : Port) : Node :=
  let kind :=
    if dictGet? ed p.name = some "in".data then "entity_in".data
    else if dictGet? ed p.name = some "out".data ||
        dictGet? ed p.name = some "buffer".data then "entity_out".data
    else "entity_bi".data
  ⟨"port::".data ++ p.name, p.name ++ " (".data ++ p.direction ++ ")".data,
    kind, none, none⟩

/-- Instance node with pin lists (wiring.py 127-133): unknown pins default
to the input side; only `out`/`buffer` pins go to the output side. -/
def instNode (ipd : List (Str × List (Str × Str))) (inst : Inst) : Node :=
  let title := inst.label ++ " : ".data ++ pyOrD inst.entity_ref inst.component_name "?".data
  let pin_dirs := dictGetD ipd inst.label []
  let formals := inst.port_map.map (fun fa => fa.1)
  let ins := formals.filter (fun fp => dictGetD pin_dirs fp "in".data = "in".data)
  let outs := formals.filter (fun fp =>
    dictGet? pin_dirs fp = some "out".data || dictGet? pin_dirs fp = some "buffer".data)
  ⟨"inst::".data ++ inst.label, title, "instance".data, some ins, some outs⟩

/-- Whether an endpoint tag is `entity` or `inst` (wiring.py line 139). -/
def Endp.isReal : Endp → Bool
  | .entity _ => true
  | .inst _ _ => true
  | _ => false

/-- Lazily materialized const/expr nodes (wiring.py 135-140), in net order. -/
def netNodes (nets : Nets) : List Node :=
  nets.foldl (fun acc kn =>
    let acc1 :=
      if kn.1.1 = "const".data then
        acc ++ [⟨"const::".data ++ kn.1.2, kn.1.2, "const".data, none, none⟩]
      else acc
    if kn.1.1 = "expr".data && kn.2.eps.any (fun e => e.1.isReal) then
      acc1 ++ [⟨"expr::".data ++ kn.1.2, kn.1.2, "expr".data, none, none⟩]
    else acc1) []

/-- An edge before the global id and bundle pass (wiring.py 145-154). -/
structure Edge0 where
  source : Str
  target : Str
  label : Str
  base : Str
  src_pin : Str
  dst_pin : Str
deriving DecidableEq, Repr

/-- Triples `(node_id, pin_label, ep_label)` as used in the per-net edge loop. -/
abbrev Trip := Str × Str × Str

/-- Endpoint role in its net. -/
inductive Role where
  | driver
  | sink
  | unknown
deriving DecidableEq, Repr

/-- Direction resolution of one endpoint (wiring.py 161-185).  Entity ports
use FLIPPED semantics: `in` is a driver, `out`/`buffer` a sink; instance pins
the opposite; `expr`/`const` endpoints always drive. -/
def classifyEp (ed : List (Str × Str)) (ipd : List (Str × List (Str × Str)))
    (base : Str) (e : Endp × Str) : Role × Trip :=
  match e with
  | (.entity pname, lab) =>
      let nid := "port::".data ++ pname
      let dir := dictGetD ed pname []
      if dir = "in".data then (.driver, (nid, pname, lab))
      else if dir = "out".data || dir = "buffer".data then (.sink, (nid, pname, lab))
      else (.unknown, (nid, pname, lab))
  | (.inst il fport, lab) =>
      let nid := "inst::".data ++ il
      let pin := il ++ ".".data ++ fport
      let dir := dictGetD (dictGetD ipd il []) fport []
      if dir = "out".data || dir = "buffer".data then (.driver, (nid, pin, lab))
      else if dir = "in".data then (.sink, (nid, pin, lab))
      else (.unknown, (nid, pin, lab))
  | (.expr text, lab) => (.driver, ("expr::".data ++ text, text, lab))
  | (.const _, lab) => (.driver, ("const::".data ++ base, base, lab))

/-- The driver/sink/unknown partition of a net's endpoints, each kept in
aggregation order (wiring.py 156-185). -/
def partitionEps (ed : List (Str × Str)) (ipd : List (Str × List (Str × Str)))
    (base : Str) (eps : List (Endp × Str)) : List Trip × List Trip × List Trip :=
  eps.foldl (fun acc e =>
    match classifyEp ed ipd base e with
    | (.driver, t) => (acc.1 ++ [t], acc.2.1, acc.2.2)
    | (.sink, t) => (acc.1, acc.2.1 ++ [t], acc.2.2)
    | (.unknown, t) => (acc.1, acc.2.1, acc.2.2 ++ [t])) ([], [], [])

/-- The `add_edge` field construction (wiring.py 145-154), minus id/bundles. -/
def mkEdge0 (src dst lab base src_pin dst_pin : Str) : Edge0 :=
  ⟨src, dst, lab, strOr base lab, strOr src_pin [], strOr dst_pin []⟩

/-- Full bipartite driver→sink edges (wiring.py 187-192); the label prefers
the sink's display label, then the driver's, then the base. -/
def bipartiteEdges (base : Str) (drivers sinks : List Trip) : List Edge0 :=
  drivers.flatMap (fun d => sinks.map (fun s =>
    mkEdge0 d.1 s.1 (strOr s.2.2 (strOr d.2.2 base)) base d.2.1 s.2.1))

/-- The `(node id, pin)` key used by the chain deduplication (line 199). -/
def dedupKey (t : Trip) : Str × Str := (t.1, t.2.1)

/-- One iteration of the dedup loop: skip an already-seen `(node id, pin)`
key, else append the endpoint to `uniq` and its key to `seen` (196-200). -/
def dedupStep (acc : List Trip × List (Str × Str)) (t : Trip) :
    List Trip × List (Str × Str) :=
  if acc.2.contains (t.1, t.2.1) then acc
  else (acc.1 ++ [t], acc.2 ++ [(t.1, t.2.1)])

/-- Deduplication by `(node id, pin)` keeping first occurrences in order
(wiring.py 196-200). -/
def dedupTrips (flat : List Trip) : List Trip :=
  (flat.foldl dedupStep ([], [])).1

/-- The conservative left-to-right chain over consecutive unique endpoints
(wiring.py 201-204). -/
def chainEdges (base : Str) : List Trip → List Edge0
  | a :: b :: rest =>
      mkEdge0 a.1 b.1 (strOr b.2.2 (strOr a.2.2 base)) base a.2.1 b.2.1 ::
        chainEdges base (b :: rest)
  | _ => []

/-- The list `flat = drivers + sinks + unknown` of one net (wiring.py line 195). -/
def flatEndpoints (ed : List (Str × Str)) (ipd : List (Str × List (Str × Str)))
    (key : NetKey) (nd : Net) : List Trip :=
  (partitionEps ed ipd key.2 nd.eps).1 ++ (partitionEps ed ipd key.2 nd.eps).2.1 ++
    (partitionEps ed ipd key.2 nd.eps).2.2

/-- Edge emission for one net (wiring.py 187-204). -/
def edgesForNet (ed : List (Str × Str)) (ipd : List (Str × List (Str × Str)))
    (key : NetKey) (nd : Net) : List Edge0 :=
  let p := partitionEps ed ipd key.2 nd.eps
  if p.1 ≠ [] ∧ p.2.1 ≠ [] then bipartiteEdges key.2 p.1 p.2.1
  else chainEdges key.2 (dedupTrips (p.1 ++ p.2.1 ++ p.2.2))

/-- A finished edge (wiring.py 145-154 and 206-215). -/
structure Edge where
  id : Str
  source : Str
  target : Str
  label : Str
  base : Str
  src_pin : Str
  dst_pin : Str
  bundle_n : Nat
  bundle_idx : Nat
deriving DecidableEq, Repr

/-- The `(source, target)` bundle key of an edge (wiring.py line 209). -/
def edgeKey (e : Edge0) : Str × Str := (e.source, e.target)

/-- Embeds `groups.setdefault(key, []).append(i)` (wiring.py 207-210). -/
def insertGroup (g : List ((Str × Str) × List Nat)) (key : Str × Str) (i : Nat) :
    List ((Str × Str) × List Nat) :=
  match dictGet? g key with
  | some l => dictSet g key (l ++ [i])
  | none => g ++ [(key, [i])]

/-- Left fold of the group-building loop over enumerated edges. -/
def groupsAux (g : List ((Str × Str) × List Nat)) :
    List (Nat × Edge0) → List ((Str × Str) × List Nat)
  | [] => g
  | ie :: rest => groupsAux (insertGroup g (edgeKey ie.2) ie.1) rest

/-- The `(source, target) -> [edge indices]` dict (wiring.py 207-210). -/
def buildGroups (es : List Edge0) : List ((Str × Str) × List Nat) :=
  groupsAux [] es.enum

/-- Attach the id (`e{index}`) and the bundle fields of one edge: its group's
size and its position within the group (wiring.py 147 and 211-215). -/
def finalizeEdge (groups : List ((Str × Str) × List Nat)) (i : Nat) (e : Edge0) :
    Edge :=
  let l := dictGetD groups (edgeKey e) []
  ⟨'e' :: (Nat.repr i).data, e.source, e.target, e.label, e.base,
    e.src_pin, e.dst_pin, l.length, l.indexOf i⟩

/-- The id/bundle pass over the emitted edge list (wiring.py 206-215). -/
def assignBundles (es : List Edge0) : List Edge :=
  let groups := buildGroups es
  es.enum.map (fun ie => finalizeEdge groups ie.1 ie.2)

/-- The `{'nodes': ..., 'edges': ...}` result. -/
structure Graph where
  nodes : List Node
  edges : List Edge
deriving DecidableEq, Repr

/-- The edge list before the id/bundle pass, per net in net order. -/
def edges0Of (fi : FileInfo) (db : EntityDb) : List Edge0 :=
  (netsOf fi).flatMap (fun kn => edgesForNet (eportDirs fi) (instPortDirs fi db) kn.1 kn.2)

/-- Embeds `build_wiring(fi, entity_port_db)` (wiring.py 46-217). -/
def build_wiring (fi : FileInfo) (db : EntityDb) : Graph :=
  let nodes := fi.ports.map (entityPortNode (eportDirs fi)) ++
    fi.instances.map (instNode (instPortDirs fi db)) ++ netNodes (netsOf fi)
  ⟨nodes, assignBundles (edges0Of fi db)⟩

/-! ### Concrete design units used in the theorems -/

/-- The minimal two-port unit of C1: one `in` port, one `out` port, no
signals, no instances, one assignment `out_port <= in_port;`. -/
def fiC1 : FileInfo :=
  ⟨some "top".data,
   [⟨"in_port".data, "in".data, "std_logic".data⟩,
    ⟨"out_port".data, "out".data, "std_logic".data⟩],
   [], [],
   [.obj "out_port".data "in_port".data]⟩

/-- The C2 unit: signal `s` feeds instance pin `u1.d` (direction `in`), and
the assignment `s <= x & y;` contributes an opaque expression driver. -/
def fiC2 : FileInfo :=
  ⟨some "top".data, [], [⟨"s".data, "std_logic".data⟩],
   [⟨"u1".data, some "c".data, none, [("d".data, "s".data)]⟩],
   [.obj "s".data "x & y".data]⟩

/-- Direction table for `fiC2`: component `c` has port `d : in`. -/
def dbC2 : EntityDb :=
  [("c".data, [("d".data, ⟨"d".data, "in".data, "std_logic".data⟩)])]

/-- C3 instance `u1`, binding actual `data(3)` to formal `p`. -/
def i1C3 : Inst := ⟨"u1".data, some "c1".data, none, [("p".data, "data(3)".data)]⟩

/-- C3 instance `u2`, binding actual `data(7 downto 0)` to formal `q`. -/
def i2C3 : Inst := ⟨"u2".data, some "c2".data, none, [("q".data, "data(7 downto 0)".data)]⟩

/-- The C3 unit: signal `data`, instance `u1` binds actual `data(3)` and
instance `u2` binds actual `data(7 downto 0)`. -/
def fiC3 : FileInfo :=
  ⟨some "top".data, [], [⟨"data".data, "std_logic_vector(7 downto 0)".data⟩],
   [i1C3, i2C3], []⟩

/-- Direction table for `fiC3`: `c1.p : in`, `c2.q : out`. -/
def dbC3 : EntityDb :=
  [("c1".data, [("p".data, ⟨"p".data, "in".data, "std_logic".data⟩)]),
   ("c2".data, [("q".data, ⟨"q".data, "out".data,
     "std_logic_vector(7 downto 0)".data⟩)])]

/-- The C4 unit: three instances whose targets are absent from the direction
table all touch signal `n`, so every endpoint's direction is unknown. -/
def fiC4 : FileInfo :=
  ⟨some "top".data, [], [⟨"n".data, "std_logic".data⟩],
   [⟨"u1".data, some "k1".data, none, [("p".data, "n".data)]⟩,
    ⟨"u2".data, some "k2".data, none, [("q".data, "n".data)]⟩,
    ⟨"u3".data, some "k3".data, none, [("r".data, "n".data)]⟩],
   []⟩

/-- The single net record of `fiC4`: three instance endpoints on `n`. -/
def ndC4 : Net :=
  ⟨"n".data, [(.inst "u1".data "p".data, "n".data),
              (.inst "u2".data "q".data, "n".data),
              (.inst "u3".data "r".data, "n".data)]⟩

/-- The C6 unit: driver pin `u1.o` and two sink pins `u2.a`, `u2.b` on one
net, producing two parallel `inst::u1 → inst::u2` edges. -/
def fiC6 : FileInfo :=
  ⟨some "top".data, [], [⟨"s".data, "std_logic".data⟩],
   [⟨"u1".data, some "cd".data, none, [("o".data, "s".data)]⟩,
    ⟨"u2".data, some "ce".data, none,
     [("a".data, "s".data), ("b".data, "s".data)]⟩],
   []⟩

/-- Direction table for `fiC6`: `cd.o : out`, `ce.a : in`, `ce.b : in`. -/
def dbC6 : EntityDb :=
  [("cd".data, [("o".data, ⟨"o".data, "out".data, "std_logic".data⟩)]),
   ("ce".data, [("a".data, ⟨"a".data, "in".data, "std_logic".data⟩),
                ("b".data, ⟨"b".data, "in".data, "std_logic".data⟩)])]

/-- The C8 instance: formals in port-map order `b`, `a`, `m`. -/
def u1C8 : Inst :=
  ⟨"u1".data, some "c".data, none,
   [("b".data, "s".data), ("a".data, "s".data), ("m".data, "s".data)]⟩

/-- The C8 unit: one instance with pins `b : in`, `a : in`, `m : inout`. -/
def fiC8 : FileInfo :=
  ⟨some "top".data, [], [⟨"s".data, "std_logic".data⟩], [u1C8], []⟩

/-- Direction table for `fiC8`: `c.b : in`, `c.a : in`, `c.m : inout`. -/
def dbC8 : EntityDb :=
  [("c".data, [("b".data, ⟨"b".data, "in".data, "t".data⟩),
               ("a".data, ⟨"a".data, "in".data, "t".data⟩),
               ("m".data, ⟨"m".data, "inout".data, "t".data⟩)])]

/-- The C10 unit: a signal named `Data` (capital D) and nothing named
`data`; instances bind the actuals `Data(3)` and `data(3)`. -/
def fiC10 : FileInfo :=
  ⟨some "top".data, [], [⟨"Data".data, "std_logic_vector(7 downto 0)".data⟩],
   [⟨"u1".data, some "c1".data, none, [("p".data, "Data(3)".data)]⟩,
    ⟨"u2".data, some "c2".data, none, [("q".data, "data(3)".data)]⟩],
   []⟩

/-- Name order used by claim C8's "sorted by name" reading: lexicographic
comparison of character lists. -/
def strLeB : Str → Str → Bool
  | [], _ => true
  | _ :: _, [] => false
  | c :: cs, d :: ds => if c < d then true else if d < c then false else strLeB cs ds

/-- The list is in ascending name order under `strLeB`. -/
def sortedByName : List Str → Bool
  | [] => true
  | [_] => true
  | a :: b :: rest => strLeB a b && sortedByName (b :: rest)

/-- The property claim C8 asserts of one instance's emitted node, stated
from the claim's words: the node exists, its pin lists cover every formal
of the port map (a partition by direction), and each list is sorted by
name.  This is the spec-side definition the counterexample refutes. -/
def specPinsSortedPartition (g : Graph) (inst : Inst) : Prop :=
  ∃ n ∈ g.nodes, n.id = "inst::".data ++ inst.label ∧
    n.kind = "instance".data ∧
    (∀ f ∈ inst.port_map.map Prod.fst,
      f ∈ n.inputs.getD [] ∨ f ∈ n.outputs.getD []) ∧
    sortedByName (n.inputs.getD []) = true ∧
    sortedByName (n.outputs.getD []) = true

/-! ## Theorems -/

/-! ### Helper lemmas on the paren-stripping loop -/

theorem pyStrip_length_le (s : Str) : (pyStrip s).length ≤ s.length := by
  unfold pyStrip
  calc ((s.dropWhile Char.isWhitespace).reverse.dropWhile Char.isWhitespace).reverse.length
      = ((s.dropWhile Char.isWhitespace).reverse.dropWhile Char.isWhitespace).length := by
        rw [List.length_reverse]
    _ ≤ (s.dropWhile Char.isWhitespace).reverse.length :=
        (List.dropWhile_suffix _).sublist.length_le
    _ = (s.dropWhile Char.isWhitespace).length := by rw [List.length_reverse]
    _ ≤ s.length := (List.dropWhile_suffix _).sublist.length_le

theorem stripCond_two_le (t : Str) (h : stripCond t = true) : 2 ≤ t.length := by
  match t with
  | [] => simp [stripCond] at h
  | [c] =>
      simp only [stripCond, List.head?, List.getLast?, Bool.and_eq_true,
        decide_eq_true_eq, Option.some.injEq] at h
      obtain ⟨⟨h1, h2⟩, -⟩ := h
      rw [h1] at h2
      exact absurd h2 (by decide)
  | a :: b :: r => simp only [List.length]; omega

theorem stripPeel_length (t : Str) (h : 2 ≤ t.length) :
    (stripPeel t).length ≤ t.length - 2 := by
  unfold stripPeel
  calc (pyStrip ((t.drop 1).dropLast)).length
      ≤ ((t.drop 1).dropLast).length := pyStrip_length_le _
    _ = (t.drop 1).length - 1 := by rw [List.length_dropLast]
    _ = t.length - 1 - 1 := by rw [List.length_drop]
    _ = t.length - 2 := by omega

theorem stripAux_of_not_cond (fuel : Nat) (t : Str) (h : stripCond t = false) :
    stripAux fuel t = t := by
  cases fuel <;> simp [stripAux, h]

theorem stripAux_congr : ∀ (k : Nat) (t : Str) (m n : Nat), t.length = k →
    k ≤ m → k ≤ n → stripAux m t = stripAux n t := by
  intro k
  induction k using Nat.strong_induction_on with
  | _ k ih =>
    intro t m n hk hm hn
    by_cases hc : stripCond t
    · have h2 := stripCond_two_le t hc
      obtain ⟨m1, rfl⟩ : ∃ m1, m = m1 + 1 := ⟨m - 1, by omega⟩
      obtain ⟨n1, rfl⟩ : ∃ n1, n = n1 + 1 := ⟨n - 1, by omega⟩
      simp only [stripAux, hc, if_true]
      have hp : (stripPeel t).length ≤ k - 2 := by
        have := stripPeel_length t h2
        omega
      exact ih (stripPeel t).length (by omega) _ m1 n1 rfl (by omega) (by omega)
    · rw [stripAux_of_not_cond _ _ (by simpa using hc),
        stripAux_of_not_cond _ _ (by simpa using hc)]

theorem stripLoop_unfold (t : Str) :
    stripLoop t = if stripCond t then stripLoop (stripPeel t) else t := by
  by_cases hc : stripCond t
  · have h2 := stripCond_two_le t hc
    obtain ⟨n, hn⟩ : ∃ n, t.length = n + 1 := ⟨t.length - 1, by omega⟩
    rw [if_pos hc]
    unfold stripLoop
    rw [hn]
    simp only [stripAux, hc, if_true]
    exact stripAux_congr (stripPeel t).length _ n _ rfl
      (by have := stripPeel_length t h2; omega) (le_refl _)
  · simp [stripLoop, stripAux_of_not_cond _ _ (by simpa using hc), hc]

/-! ### C9 — outer-parenthesis stripping -/

/-- C9 counterexample: the claim says `(a)(b)` is not stripped because its
first and last parentheses do not match each other; the code's guard only
checks that the depth scan never goes negative and ends at zero, which
`(a)(b)` satisfies, so the code strips it to `a)(b`. -/
theorem strip_parens_cex :
    _strip_outer_parens "(a)(b)".data = "a)(b".data ∧
    "a)(b".data ≠ "(a)(b)".data := by
  constructor
  · rfl
  · decide

/-- C9 (amended): the classifier's first step trims the text and then
removes an outer parenthesis pair (and repeats) exactly while the trimmed
text begins with `(`, ends with `)`, and the parenthesis depth scanned over
the whole text never goes negative and finishes at zero; otherwise it leaves
the trimmed text unchanged.  That guard does not require the first and last
parentheses to match each other: `(a)(b)` satisfies it and is stripped
to `a)(b`. -/
theorem strip_parens_amended :
    (∀ s : Str, _strip_outer_parens s = stripLoop (pyStrip s)) ∧
    (∀ t : Str, stripLoop t = if stripCond t then stripLoop (stripPeel t) else t) ∧
    stripCond "(a)(b)".data = true ∧
    _strip_outer_parens "(a)(b)".data = "a)(b".data :=
  ⟨fun _ => rfl, stripLoop_unfold, by decide, by rfl⟩

/-! ### C1 — polarity inversion at the unit boundary -/

/-- C1: on the minimal two-port unit with the single assignment
`out_port <= in_port;` the code emits no edge at all (the claim requires
exactly one edge from the `in_port` node to the `out_port` node).  The
assignment is aggregated under net key `(signal, "out_port")` with an opaque
expression driver, disjoint from the `(eport, ...)` nets holding the two
port endpoints, so each of the three nets degenerates to a one-endpoint
chain with zero edges. -/
theorem polarity_minimal_unit_zero_edges :
    (build_wiring fiC1 []).edges = [] ∧
    (build_wiring fiC1 []).nodes.map Node.id =
      ["port::in_port".data, "port::out_port".data] ∧
    (netsOf fiC1).map (fun kn => kn.1) =
      [("eport".data, "in_port".data), ("eport".data, "out_port".data),
       ("signal".data, "out_port".data)] := by decide

/-! ### C2 — graph closedness (no dangling edge endpoints) -/

/-- C2: the closedness invariant fails.  On `fiC2` the net
`(signal, "s")` contains the sink `u1.d` and the assignment's expression
driver; the emitted edge has source id `expr::x & y`, but expression nodes
are materialized only for nets whose own kind is `expr`, so no node with
that id exists — a dangling edge endpoint. -/
theorem dangling_expr_edge :
    (build_wiring fiC2 dbC2).edges.map Edge.source = ["expr::x & y".data] ∧
    (build_wiring fiC2 dbC2).nodes.map Node.id = ["inst::u1".data] ∧
    "expr::x & y".data ∉ (build_wiring fiC2 dbC2).nodes.map Node.id := by decide

/-! ### Ordered-dict lemmas -/

theorem dictGet?_dictSet_self {K V : Type} [DecidableEq K]
    (d : List (K × V)) (k : K) (v : V) : dictGet? (dictSet d k v) k = some v := by
  induction d with
  | nil => simp [dictSet, dictGet?]
  | cons h t ih =>
      obtain ⟨k1, v1⟩ := h
      by_cases hk : k1 = k
      · subst hk; simp [dictSet, dictGet?]
      · simp [dictSet, dictGet?, hk, ih]

theorem dictGet?_dictSet_ne {K V : Type} [DecidableEq K]
    (d : List (K × V)) (k k2 : K) (v : V) (h : k2 ≠ k) :
    dictGet? (dictSet d k v) k2 = dictGet? d k2 := by
  induction d with
  | nil => simp [dictSet, dictGet?, Ne.symm h]
  | cons hd t ih =>
      obtain ⟨k1, v1⟩ := hd
      by_cases hk : k1 = k
      · subst hk
        simp [dictSet, dictGet?, Ne.symm h]
      · simp [dictSet, dictGet?, hk, ih]

theorem dictGet?_append {K V : Type} [DecidableEq K]
    (d e : List (K × V)) (k : K) :
    dictGet? (d ++ e) k =
      match dictGet? d k with
      | some v => some v
      | none => dictGet? e k := by
  induction d with
  | nil => simp [dictGet?]
  | cons hd t ih =>
      obtain ⟨k1, v1⟩ := hd
      by_cases hk : k1 = k
      · subst hk; simp [dictGet?]
      · simp [dictGet?, hk, ih]

theorem dictGet?_eq_none_iff {K V : Type} [DecidableEq K]
    (d : List (K × V)) (k : K) :
    dictGet? d k = none ↔ k ∉ d.map Prod.fst := by
  induction d with
  | nil => simp [dictGet?]
  | cons hd t ih =>
      obtain ⟨k1, v1⟩ := hd
      by_cases hk : k1 = k
      · subst hk; simp [dictGet?]
      · simp [dictGet?, hk, ih, Ne.symm hk]

theorem dictSet_map_fst_of_get {K V : Type} [DecidableEq K]
    (d : List (K × V)) (k : K) (v w : V) (h : dictGet? d k = some w) :
    (dictSet d k v).map Prod.fst = d.map Prod.fst := by
  induction d with
  | nil => simp [dictGet?] at h
  | cons hd t ih =>
      obtain ⟨k1, v1⟩ := hd
      by_cases hk : k1 = k
      · subst hk; simp [dictSet]
      · simp only [dictGet?, if_neg hk] at h
        simp [dictSet, hk, ih h]

/-! ### C7 — determinism of `build_wiring` -/

/-- C7: two runs of `build_wiring` on equal inputs produce identical node
and edge lists.  Every ordering the code relies on (dict iteration, list
order) is the insertion order, modelled explicitly by lists, so the
embedded builder is a pure function of its two arguments. -/
theorem build_wiring_deterministic (fi1 fi2 : FileInfo) (db1 db2 : EntityDb)
    (hfi : fi1 = fi2) (hdb : db1 = db2) :
    (build_wiring fi1 db1).nodes = (build_wiring fi2 db2).nodes ∧
    (build_wiring fi1 db1).edges = (build_wiring fi2 db2).edges := by
  subst hfi; subst hdb; exact ⟨rfl, rfl⟩

/-- Witness for C7 at the concrete C1 unit. -/
theorem build_wiring_deterministic_witness :
    (build_wiring fiC1 []).nodes = (build_wiring fiC1 []).nodes ∧
    (build_wiring fiC1 []).edges = (build_wiring fiC1 []).edges :=
  build_wiring_deterministic fiC1 fiC1 [] [] rfl rfl

/-! ### C10 — case sensitivity of name lookup -/

/-- C10: the classifier's base-name lookup is a case-sensitive exact match
(a unit with no declared name `data` classifies the actual `data(3)` as an
opaque `expr` even when `Data` is declared), while the keyword `open` is
recognized on the lowered text, and the bare literals `0`/`1` classify as
`const` in every unit; on `fiC10` the actuals `Data(3)` and `data(3)` land
in two distinct nets. -/
theorem case_sensitive_lookup :
    (∀ fi : FileInfo, "data".data ∉ sigNames fi → "data".data ∉ eportNames fi →
      _classify_actual "data(3)".data fi = ("expr".data, "data(3)".data, none)) ∧
    (∀ (s : Str) (fi : FileInfo), strLower (_strip_outer_parens s) = "open".data →
      _classify_actual s fi = ("open".data, _strip_outer_parens s, none)) ∧
    (∀ fi : FileInfo,
      _classify_actual "0".data fi = ("const".data, "0".data, none) ∧
      _classify_actual "1".data fi = ("const".data, "1".data, none)) ∧
    (netsOf fiC10).map Prod.fst =
      [("signal".data, "Data".data), ("expr".data, "data(3)".data)] := by
  refine ⟨?_, ?_, fun fi => ⟨rfl, rfl⟩, by decide⟩
  · intro fi h1 h2
    have hs : (sigNames fi).contains "data".data = false := by
      simp only [List.contains, List.elem_eq_mem, decide_eq_false_iff_not]
      exact h1
    have hp : (eportNames fi).contains "data".data = false := by
      simp only [List.contains, List.elem_eq_mem, decide_eq_false_iff_not]
      exact h2
    simp only [_classify_actual,
      show (_strip_outer_parens "data(3)".data) = "data(3)".data from rfl,
      show (_split_base_slice "data(3)".data).1 = "data".data from rfl]
    rw [if_neg (by decide), if_neg (by decide),
      if_neg (by rw [hs]; exact Bool.false_ne_true),
      if_neg (by rw [hp]; exact Bool.false_ne_true)]
  · intro s fi h
    simp only [_classify_actual]
    rw [if_pos h]

/-- Witness for C10: the hypotheses discharged on the concrete `fiC10`
(which declares `Data` but nothing named `data`) and on the actual `OPEN`. -/
theorem case_sensitive_lookup_witness :
    _classify_actual "data(3)".data fiC10 = ("expr".data, "data(3)".data, none) ∧
    _classify_actual "OPEN".data fiC10 = ("open".data, "OPEN".data, none) :=
  ⟨case_sensitive_lookup.1 fiC10 (by decide) (by decide),
   case_sensitive_lookup.2.1 "OPEN".data fiC10 (by decide)⟩

/-! ### The chain branch of the per-net edge emission -/

theorem edgesForNet_chain (ed : List (Str × Str))
    (ipd : List (Str × List (Str × Str))) (key : NetKey) (nd : Net)
    (h : (partitionEps ed ipd key.2 nd.eps).1 = [] ∨
      (partitionEps ed ipd key.2 nd.eps).2.1 = []) :
    edgesForNet ed ipd key nd =
      chainEdges key.2 (dedupTrips ((partitionEps ed ipd key.2 nd.eps).1 ++
        (partitionEps ed ipd key.2 nd.eps).2.1 ++
        (partitionEps ed ipd key.2 nd.eps).2.2)) := by
  simp only [edgesForNet]
  rw [if_neg]
  rintro ⟨h1, h2⟩
  rcases h with h | h
  · exact h1 h
  · exact h2 h

/-! ### C5 — totality of classification and conservative degradation -/

/-- C5: the classifier is total, always returning one of the five kinds
`signal`/`eport`/`const`/`expr`/`open`; every input recognized by none of
the earlier tests (not `open`, not a literal form, base matching no declared
signal or port name) degrades to kind `expr`; and whenever a net lacks a
driver or lacks a sink, the builder emits the conservative chain topology
instead of failing. -/
theorem classifier_total_and_degrading :
    (∀ (s : Str) (fi : FileInfo),
      (_classify_actual s fi).1 = "signal".data ∨
      (_classify_actual s fi).1 = "eport".data ∨
      (_classify_actual s fi).1 = "const".data ∨
      (_classify_actual s fi).1 = "expr".data ∨
      (_classify_actual s fi).1 = "open".data) ∧
    (∀ (s : Str) (fi : FileInfo),
      strLower (_strip_outer_parens s) ≠ "open".data →
      constForm (strLower (_strip_outer_parens s)) = false →
      (_split_base_slice (_strip_outer_parens s)).1 ∉ sigNames fi →
      (_split_base_slice (_strip_outer_parens s)).1 ∉ eportNames fi →
      _classify_actual s fi = ("expr".data, _strip_outer_parens s, none)) ∧
    (∀ (ed : List (Str × Str)) (ipd : List (Str × List (Str × Str)))
        (key : NetKey) (nd : Net),
      (partitionEps ed ipd key.2 nd.eps).1 = [] ∨
        (partitionEps ed ipd key.2 nd.eps).2.1 = [] →
      edgesForNet ed ipd key nd =
        chainEdges key.2 (dedupTrips ((partitionEps ed ipd key.2 nd.eps).1 ++
          (partitionEps ed ipd key.2 nd.eps).2.1 ++
          (partitionEps ed ipd key.2 nd.eps).2.2))) := by
  refine ⟨?_, ?_, edgesForNet_chain⟩
  · intro s fi
    simp only [_classify_actual]
    split
    · simp
    · split
      · simp
      · split
        · simp
        · split <;> simp
  · intro s fi h1 h2 h3 h4
    have hs : (sigNames fi).contains (_split_base_slice (_strip_outer_parens s)).1 = false := by
      simp only [List.contains, List.elem_eq_mem, decide_eq_false_iff_not]
      exact h3
    have hp : (eportNames fi).contains (_split_base_slice (_strip_outer_parens s)).1 = false := by
      simp only [List.contains, List.elem_eq_mem, decide_eq_false_iff_not]
      exact h4
    simp only [_classify_actual]
    rw [if_neg h1, if_neg (by rw [h2]; exact Bool.false_ne_true),
      if_neg (by rw [hs]; exact Bool.false_ne_true),
      if_neg (by rw [hp]; exact Bool.false_ne_true)]

/-- Witness for C5: the degradation conjunct at the unrecognized actual
`a & b` in the C1 unit, and the chain conjunct at a one-endpoint net whose
instance target is unknown. -/
theorem classifier_total_and_degrading_witness :
    _classify_actual "a & b".data fiC1 = ("expr".data, "a & b".data, none) ∧
    edgesForNet [] [] ("signal".data, "n".data)
        ⟨"n".data, [(.inst "u1".data "p".data, "n".data)]⟩ =
      chainEdges "n".data (dedupTrips
        ((partitionEps [] [] "n".data [(.inst "u1".data "p".data, "n".data)]).1 ++
         (partitionEps [] [] "n".data [(.inst "u1".data "p".data, "n".data)]).2.1 ++
         (partitionEps [] [] "n".data [(.inst "u1".data "p".data, "n".data)]).2.2)) :=
  ⟨classifier_total_and_degrading.2.1 "a & b".data fiC1 (by decide) (by decide)
      (by decide) (by decide),
   classifier_total_and_degrading.2.2 [] [] ("signal".data, "n".data)
      ⟨"n".data, [(.inst "u1".data "p".data, "n".data)]⟩ (by decide)⟩

/-! ### Net-aggregation lemmas -/

theorem foldl_pres {α β : Type} (P : β → Prop) (f : β → α → β)
    (hstep : ∀ b a, P b → P (f b a)) :
    ∀ (l : List α) (b0 : β), P b0 → P (l.foldl f b0) := by
  intro l
  induction l with
  | nil => intro b0 h; simpa using h
  | cons a t ih =>
      intro b0 h
      simp only [List.foldl_cons]
      exact ih _ (hstep _ _ h)

theorem add_ep_keys_nodup (nets : Nets) (k b : Str) (ep : Endp) (l : Str)
    (h : (nets.map Prod.fst).Nodup) :
    ((add_ep nets k b ep l).map Prod.fst).Nodup := by
  unfold add_ep
  cases hg : dictGet? nets (k, b) with
  | some nd => rw [dictSet_map_fst_of_get _ _ _ _ hg]; exact h
  | none =>
      have hnm : (k, b) ∉ nets.map Prod.fst := (dictGet?_eq_none_iff _ _).1 hg
      rw [List.map_append]
      simp [List.nodup_append, h, hnm]

theorem EpIn_add_ep (nets : Nets) (k b : Str) (ep : Endp) (l : Str)
    (K : NetKey) (x : Endp × Str) (h : EpIn nets K x) :
    EpIn (add_ep nets k b ep l) K x := by
  obtain ⟨nd, hget, hx⟩ := h
  unfold add_ep
  cases hg : dictGet? nets (k, b) with
  | some nd1 =>
      show EpIn (dictSet nets (k, b) ⟨nd1.base, nd1.eps ++ [(ep, l)]⟩) K x
      by_cases hK : K = (k, b)
      · subst hK
        rw [hget] at hg
        cases hg
        exact ⟨_, dictGet?_dictSet_self _ _ _, by simp [hx]⟩
      · exact ⟨nd, by rw [dictGet?_dictSet_ne _ _ _ _ hK]; exact hget, hx⟩
  | none =>
      show EpIn (nets ++ [((k, b), ⟨b, [(ep, l)]⟩)]) K x
      exact ⟨nd, by rw [dictGet?_append, hget], hx⟩

theorem EpIn_add_ep_self (nets : Nets) (k b : Str) (ep : Endp) (l : Str) :
    EpIn (add_ep nets k b ep l) (k, b) (ep, l) := by
  unfold add_ep
  cases hg : dictGet? nets (k, b) with
  | some nd =>
      show EpIn (dictSet nets (k, b) ⟨nd.base, nd.eps ++ [(ep, l)]⟩) (k, b) (ep, l)
      exact ⟨_, dictGet?_dictSet_self _ _ _, by simp⟩
  | none =>
      show EpIn (nets ++ [((k, b), ⟨b, [(ep, l)]⟩)]) (k, b) (ep, l)
      refine ⟨⟨b, [(ep, l)]⟩, ?_, by simp⟩
      rw [dictGet?_append, hg]
      simp [dictGet?]

theorem EpIn_addActual (fi : FileInfo) (nets : Nets) (il f a : Str)
    (K : NetKey) (x : Endp × Str) (h : EpIn nets K x) :
    EpIn (addActual fi nets il f a) K x := by
  simp only [addActual]
  split
  · exact h
  · split
    · exact EpIn_add_ep _ _ _ _ _ _ _ h
    · split
      · exact EpIn_add_ep _ _ _ _ _ _ _ h
      · exact EpIn_add_ep _ _ _ _ _ _ _ h

theorem EpIn_addAssign (nets : Nets) (a : Assign) (K : NetKey) (x : Endp × Str)
    (h : EpIn nets K x) : EpIn (addAssign nets a) K x := by
  simp only [addAssign]
  split
  · exact h
  · exact EpIn_add_ep _ _ _ _ _ _ _ h

theorem addActual_keys_nodup (fi : FileInfo) (nets : Nets) (il f a : Str)
    (h : (nets.map Prod.fst).Nodup) :
    ((addActual fi nets il f a).map Prod.fst).Nodup := by
  simp only [addActual]
  split
  · exact h
  · split
    · exact add_ep_keys_nodup _ _ _ _ _ h
    · split
      · exact add_ep_keys_nodup _ _ _ _ _ h
      · exact add_ep_keys_nodup _ _ _ _ _ h

theorem addAssign_keys_nodup (nets : Nets) (a : Assign)
    (h : (nets.map Prod.fst).Nodup) :
    ((addAssign nets a).map Prod.fst).Nodup := by
  simp only [addAssign]
  split
  · exact h
  · exact add_ep_keys_nodup _ _ _ _ _ h

theorem netsOf_keys_nodup (fi : FileInfo) : ((netsOf fi).map Prod.fst).Nodup := by
  unfold netsOf
  refine foldl_pres (fun ns : Nets => ((ns.map Prod.fst).Nodup)) _
    (fun ns (a : Assign) h => addAssign_keys_nodup ns a h) _ _ ?_
  refine foldl_pres (fun ns : Nets => ((ns.map Prod.fst).Nodup)) _
    (fun ns (p : Port) h => add_ep_keys_nodup ns _ _ _ _ h) _ _ ?_
  refine foldl_pres (fun ns : Nets => ((ns.map Prod.fst).Nodup)) _
    (fun ns (inst : Inst) h => ?_) _ _ ?_
  · exact foldl_pres (fun ns : Nets => ((ns.map Prod.fst).Nodup)) _
      (fun ns (fa : Str × Str) h => addActual_keys_nodup fi ns inst.label fa.1 fa.2 h) _ _ h
  · simp

theorem addActual_signal_eq (fi : FileInfo) (nets : Nets) (il f a lab b : Str)
    (hcls : _classify_actual a fi = ("signal".data, lab, some b)) :
    addActual fi nets il f a = add_ep nets "signal".data b (.inst il f) lab := by
  simp only [addActual, hcls]
  rw [if_neg (by decide), if_pos (by simp)]
  simp

theorem netsOf_inst_mem (fi : FileInfo) (inst : Inst) (hinst : inst ∈ fi.instances)
    (f a lab b : Str) (hfa : (f, a) ∈ inst.port_map)
    (hcls : _classify_actual a fi = ("signal".data, lab, some b)) :
    EpIn (netsOf fi) ("signal".data, b) (.inst inst.label f, lab) := by
  obtain ⟨pre, post, hL⟩ := List.append_of_mem hinst
  obtain ⟨ppre, ppost, hP⟩ := List.append_of_mem hfa
  unfold netsOf
  refine foldl_pres (fun ns => EpIn ns ("signal".data, b) (.inst inst.label f, lab)) _
    (fun ns (x : Assign) h => EpIn_addAssign ns x _ _ h) _ _ ?_
  refine foldl_pres (fun ns => EpIn ns ("signal".data, b) (.inst inst.label f, lab)) _
    (fun ns (p : Port) h => EpIn_add_ep ns _ _ _ _ _ _ h) _ _ ?_
  rw [hL, List.foldl_append, List.foldl_cons]
  refine foldl_pres (fun ns => EpIn ns ("signal".data, b) (.inst inst.label f, lab)) _
    (fun ns (i2 : Inst) h =>
      foldl_pres (fun ns => EpIn ns ("signal".data, b) (.inst inst.label f, lab)) _
        (fun ns (fa : Str × Str) h => EpIn_addActual fi ns i2.label fa.1 fa.2 _ _ h) _ _ h) _ _ ?_
  rw [hP, List.foldl_append, List.foldl_cons]
  refine foldl_pres (fun ns => EpIn ns ("signal".data, b) (.inst inst.label f, lab)) _
    (fun ns (fa : Str × Str) h => EpIn_addActual fi ns inst.label fa.1 fa.2 _ _ h) _ _ ?_
  rw [addActual_signal_eq fi _ inst.label f a lab b hcls]
  exact EpIn_add_ep_self _ _ _ _ _

/-! ### C3 — bundle merge by base name -/

/-- C3: in every unit declaring a signal `data`, the actuals `data(3)` and
`data(7 downto 0)` both classify to kind `signal` with base `data`; the
aggregated nets have pairwise-distinct keys (so there is a single net keyed
`(signal, data)`); endpoints bound through those actuals in the same or in
different instances all land in that one net; and on the concrete two-
instance unit `fiC3` the resulting edge set connects the two instances with
a single edge of base `data` — one net, not two. -/
theorem bundle_merge (fi : FileInfo) (hd : "data".data ∈ sigNames fi) :
    _classify_actual "data(3)".data fi =
      ("signal".data, "data(3)".data, some "data".data) ∧
    _classify_actual "data(7 downto 0)".data fi =
      ("signal".data, "data(7 downto 0)".data, some "data".data) ∧
    ((netsOf fi).map Prod.fst).Nodup ∧
    (∀ i1 ∈ fi.instances, ∀ i2 ∈ fi.instances, ∀ f1 f2 : Str,
      (f1, "data(3)".data) ∈ i1.port_map →
      (f2, "data(7 downto 0)".data) ∈ i2.port_map →
      ∃ nd, dictGet? (netsOf fi) ("signal".data, "data".data) = some nd ∧
        (Endp.inst i1.label f1, "data(3)".data) ∈ nd.eps ∧
        (Endp.inst i2.label f2, "data(7 downto 0)".data) ∈ nd.eps) ∧
    (build_wiring fiC3 dbC3).edges.map (fun e => (e.source, e.target, e.base)) =
      [("inst::u2".data, "inst::u1".data, "data".data)] := by
  have hs : (sigNames fi).contains "data".data = true := by
    simp only [List.contains, List.elem_eq_mem, decide_eq_true_eq]
    exact hd
  have hcls1 : _classify_actual "data(3)".data fi =
      ("signal".data, "data(3)".data, some "data".data) := by
    simp only [_classify_actual,
      show _strip_outer_parens "data(3)".data = "data(3)".data from rfl,
      show (_split_base_slice "data(3)".data).1 = "data".data from rfl]
    rw [if_neg (by decide), if_neg (by decide), if_pos hs]
  have hcls2 : _classify_actual "data(7 downto 0)".data fi =
      ("signal".data, "data(7 downto 0)".data, some "data".data) := by
    simp only [_classify_actual,
      show _strip_outer_parens "data(7 downto 0)".data = "data(7 downto 0)".data
        from rfl,
      show (_split_base_slice "data(7 downto 0)".data).1 = "data".data from rfl]
    rw [if_neg (by decide), if_neg (by decide), if_pos hs]
  refine ⟨hcls1, hcls2, netsOf_keys_nodup fi, ?_, by decide⟩
  intro i1 h1 i2 h2 f1 f2 hf1 hf2
  obtain ⟨nd1, hg1, hm1⟩ := netsOf_inst_mem fi i1 h1 f1 _ _ _ hf1 hcls1
  obtain ⟨nd2, hg2, hm2⟩ := netsOf_inst_mem fi i2 h2 f2 _ _ _ hf2 hcls2
  rw [hg1] at hg2
  have hnd : nd1 = nd2 := Option.some_inj.mp hg2
  subst hnd
  exact ⟨nd1, hg1, hm1, hm2⟩

/-- Witness for C3: both endpoints of `fiC3` recorded in the single
`(signal, data)` net. -/
theorem bundle_merge_witness :
    ∃ nd, dictGet? (netsOf fiC3) ("signal".data, "data".data) = some nd ∧
      (Endp.inst "u1".data "p".data, "data(3)".data) ∈ nd.eps ∧
      (Endp.inst "u2".data "q".data, "data(7 downto 0)".data) ∈ nd.eps :=
  (bundle_merge fiC3 (by decide)).2.2.2.1 i1C3 (by decide) i2C3 (by decide)
    "p".data "q".data (by decide) (by decide)

/-! ### Chain and deduplication lemmas -/

theorem chainEdges_length (base : Str) :
    ∀ l : List Trip, (chainEdges base l).length = l.length - 1
  | [] => rfl
  | [_] => rfl
  | a :: b :: rest => by
      have ih := chainEdges_length base (b :: rest)
      simp only [chainEdges, List.length_cons] at *
      omega

theorem chainEdges_get (base : Str) :
    ∀ (l : List Trip) (k : Nat) (a b : Trip), l[k]? = some a → l[k + 1]? = some b →
      (chainEdges base l)[k]? =
        some (mkEdge0 a.1 b.1 (strOr b.2.2 (strOr a.2.2 base)) base a.2.1 b.2.1)
  | [], k, a, b => by simp
  | [_], k, a, b => by
      intro _ hb
      rcases k with _ | k <;> simp at hb
  | x :: y :: rest, 0, a, b => by
      intro ha hb
      simp only [List.getElem?_cons_zero, Option.some_inj] at ha
      simp only [List.getElem?_cons_succ, List.getElem?_cons_zero,
        Option.some_inj] at hb
      subst ha; subst hb
      simp [chainEdges]
  | x :: y :: rest, k + 1, a, b => by
      intro ha hb
      rw [List.getElem?_cons_succ] at ha hb
      simpa [chainEdges] using chainEdges_get base (y :: rest) k a b ha hb

theorem dedup_seen_mono :
    ∀ (l : List Trip) (acc : List Trip × List (Str × Str)) (k : Str × Str),
      k ∈ acc.2 → k ∈ (l.foldl dedupStep acc).2 := by
  intro l
  induction l with
  | nil => intro acc k h; simpa using h
  | cons t rest ih =>
      intro acc k h
      simp only [List.foldl_cons]
      refine ih _ _ ?_
      unfold dedupStep
      split
      · exact h
      · simp [h]

theorem dedup_seen_eq :
    ∀ (l : List Trip) (acc : List Trip × List (Str × Str)),
      acc.2 = acc.1.map dedupKey →
      (l.foldl dedupStep acc).2 = (l.foldl dedupStep acc).1.map dedupKey := by
  intro l
  induction l with
  | nil => intro acc h; simpa using h
  | cons t rest ih =>
      intro acc h
      simp only [List.foldl_cons]
      refine ih _ ?_
      unfold dedupStep
      split
      · exact h
      · simp [h, dedupKey]

theorem dedup_keys_nodup :
    ∀ (l : List Trip) (acc : List Trip × List (Str × Str)),
      acc.2 = acc.1.map dedupKey → (acc.1.map dedupKey).Nodup →
      ((l.foldl dedupStep acc).1.map dedupKey).Nodup := by
  intro l
  induction l with
  | nil => intro acc _ h2; simpa using h2
  | cons t rest ih =>
      intro acc h1 h2
      simp only [List.foldl_cons]
      by_cases hc : acc.2.contains (t.1, t.2.1)
      · rw [show dedupStep acc t = acc from by unfold dedupStep; rw [if_pos hc]]
        exact ih _ h1 h2
      · rw [show dedupStep acc t = (acc.1 ++ [t], acc.2 ++ [(t.1, t.2.1)]) from by
          unfold dedupStep; rw [if_neg hc]]
        have hne : (t.1, t.2.1) ∉ acc.1.map dedupKey := by
          rw [← h1]
          intro hm
          rw [show acc.2.contains (t.1, t.2.1) =
            decide ((t.1, t.2.1) ∈ acc.2) from List.elem_eq_mem _ _] at hc
          simp [hm] at hc
        refine ih _ (by simp [h1, dedupKey]) ?_
        simp only [List.map_append]
        simp [List.nodup_append, h2, dedupKey, hne]

theorem dedup_extension :
    ∀ (l : List Trip) (acc : List Trip × List (Str × Str)),
      ∃ s, (l.foldl dedupStep acc).1 = acc.1 ++ s ∧ s.Sublist l := by
  intro l
  induction l with
  | nil => intro acc; exact ⟨[], by simp, List.Sublist.refl _⟩
  | cons t rest ih =>
      intro acc
      simp only [List.foldl_cons]
      by_cases hc : acc.2.contains (t.1, t.2.1)
      · rw [show dedupStep acc t = acc from by unfold dedupStep; rw [if_pos hc]]
        obtain ⟨s, hs, hsub⟩ := ih acc
        exact ⟨s, hs, hsub.cons t⟩
      · rw [show dedupStep acc t = (acc.1 ++ [t], acc.2 ++ [(t.1, t.2.1)]) from by
          unfold dedupStep; rw [if_neg hc]]
        obtain ⟨s, hs, hsub⟩ := ih (acc.1 ++ [t], acc.2 ++ [(t.1, t.2.1)])
        exact ⟨t :: s, by simpa using hs, hsub.cons₂ t⟩

theorem dedup_covers :
    ∀ (l : List Trip) (acc : List Trip × List (Str × Str)),
      ∀ t ∈ l, dedupKey t ∈ (l.foldl dedupStep acc).2 := by
  intro l
  induction l with
  | nil => intro acc t h; simp at h
  | cons x rest ih =>
      intro acc t h
      simp only [List.foldl_cons]
      rcases List.mem_cons.mp h with h | h
      · subst h
        refine dedup_seen_mono rest _ _ ?_
        unfold dedupStep
        split
        · next hc =>
            rw [show acc.2.contains (t.1, t.2.1) =
              decide ((t.1, t.2.1) ∈ acc.2) from List.elem_eq_mem _ _] at hc
            simpa [dedupKey] using of_decide_eq_true hc
        · simp [dedupKey]
      · exact ih _ t h

theorem dedupTrips_keys_nodup (l : List Trip) :
    ((dedupTrips l).map dedupKey).Nodup :=
  dedup_keys_nodup l ([], []) (by simp) (by simp)

theorem dedupTrips_sublist (l : List Trip) : (dedupTrips l).Sublist l := by
  obtain ⟨s, hs, hsub⟩ := dedup_extension l ([], [])
  unfold dedupTrips
  rw [hs]
  simpa using hsub

theorem dedupTrips_covers (l : List Trip) :
    ∀ t ∈ l, dedupKey t ∈ (dedupTrips l).map dedupKey := by
  intro t ht
  have h1 := dedup_covers l ([], []) t ht
  have h2 := dedup_seen_eq l ([], []) (by simp)
  rw [h2] at h1
  exact h1

/-! ### C4 — conservative chain fallback -/

/-- C4: whenever a net lacks a driver or lacks a sink, the emitted edges are
the left-to-right chain over the endpoints deduplicated by `(node id, pin)`:
exactly `n - 1` edges for `n` unique endpoints, the unique endpoints keep
their aggregation order (a sublist of `flat` with pairwise-distinct keys
covering every endpoint's key), and the `k`-th edge connects the `k`-th
unique endpoint to the `(k+1)`-st.  In particular an instance endpoint whose
label is absent from the resolved direction table is always classified
`unknown`, so a net all of whose targets are unknown takes this branch. -/
theorem chain_fallback (ed : List (Str × Str))
    (ipd : List (Str × List (Str × Str))) (key : NetKey) (nd : Net)
    (h : (partitionEps ed ipd key.2 nd.eps).1 = [] ∨
      (partitionEps ed ipd key.2 nd.eps).2.1 = []) :
    edgesForNet ed ipd key nd =
      chainEdges key.2 (dedupTrips (flatEndpoints ed ipd key nd)) ∧
    (edgesForNet ed ipd key nd).length =
      (dedupTrips (flatEndpoints ed ipd key nd)).length - 1 ∧
    ((dedupTrips (flatEndpoints ed ipd key nd)).map dedupKey).Nodup ∧
    (dedupTrips (flatEndpoints ed ipd key nd)).Sublist
      (flatEndpoints ed ipd key nd) ∧
    (∀ t ∈ flatEndpoints ed ipd key nd,
      dedupKey t ∈ (dedupTrips (flatEndpoints ed ipd key nd)).map dedupKey) ∧
    (∀ (k : Nat) (a b : Trip),
      (dedupTrips (flatEndpoints ed ipd key nd))[k]? = some a →
      (dedupTrips (flatEndpoints ed ipd key nd))[k + 1]? = some b →
      (edgesForNet ed ipd key nd)[k]? =
        some (mkEdge0 a.1 b.1 (strOr b.2.2 (strOr a.2.2 key.2)) key.2
          a.2.1 b.2.1)) ∧
    (∀ (ipd2 : List (Str × List (Str × Str))) (ed2 : List (Str × Str))
        (base il fp lab : Str), dictGet? ipd2 il = none →
      (classifyEp ed2 ipd2 base (.inst il fp, lab)).1 = Role.unknown) := by
  have hch : edgesForNet ed ipd key nd =
      chainEdges key.2 (dedupTrips (flatEndpoints ed ipd key nd)) :=
    edgesForNet_chain ed ipd key nd h
  refine ⟨hch, ?_, dedupTrips_keys_nodup _, dedupTrips_sublist _,
    dedupTrips_covers _, ?_, ?_⟩
  · rw [hch]; exact chainEdges_length _ _
  · intro k a b ha hb
    rw [hch]
    exact chainEdges_get _ _ k a b ha hb
  · intro ipd2 ed2 base il fp lab hil
    simp only [classifyEp, dictGetD, hil, Option.getD]
    rw [show dictGet? ([] : List (Str × Str)) fp = none from rfl]
    rw [if_neg (by decide), if_neg (by decide)]

/-- Witness for C4 at the all-unknown net of `fiC4`: three endpoints whose
instance targets are absent from the direction table produce the two-edge
chain `u1 → u2 → u3`. -/
theorem chain_fallback_witness :
    edgesForNet (eportDirs fiC4) (instPortDirs fiC4 []) ("signal".data, "n".data)
        ndC4 =
      chainEdges "n".data (dedupTrips (flatEndpoints (eportDirs fiC4)
        (instPortDirs fiC4 []) ("signal".data, "n".data) ndC4)) ∧
    (edgesForNet (eportDirs fiC4) (instPortDirs fiC4 [])
        ("signal".data, "n".data) ndC4).length =
      (dedupTrips (flatEndpoints (eportDirs fiC4) (instPortDirs fiC4 [])
        ("signal".data, "n".data) ndC4)).length - 1 :=
  ⟨(chain_fallback (eportDirs fiC4) (instPortDirs fiC4 [])
      ("signal".data, "n".data) ndC4 (Or.inl (by decide))).1,
   (chain_fallback (eportDirs fiC4) (instPortDirs fiC4 [])
      ("signal".data, "n".data) ndC4 (Or.inl (by decide))).2.1⟩

/-! ### Bundle-grouping lemmas -/

theorem insertGroup_get_ne (g : List ((Str × Str) × List Nat)) (k2 k : Str × Str)
    (i : Nat) (h : k ≠ k2) : dictGet? (insertGroup g k2 i) k = dictGet? g k := by
  unfold insertGroup
  cases hg : dictGet? g k2 with
  | some l => exact dictGet?_dictSet_ne _ _ _ _ h
  | none =>
      rw [dictGet?_append]
      cases hk : dictGet? g k with
      | some v => rfl
      | none => simp [dictGet?, Ne.symm h]

theorem insertGroup_get_self (g : List ((Str × Str) × List Nat)) (k : Str × Str)
    (i : Nat) : dictGet? (insertGroup g k i) k = some (dictGetD g k [] ++ [i]) := by
  unfold insertGroup
  cases hg : dictGet? g k with
  | some l =>
      rw [dictGet?_dictSet_self]
      simp [dictGetD, hg]
  | none =>
      rw [dictGet?_append, hg]
      simp [dictGet?, dictGetD, hg]

theorem groupsAux_get (k : Str × Str) :
    ∀ (ps : List (Nat × Edge0)) (g : List ((Str × Str) × List Nat)),
      dictGet? (groupsAux g ps) k =
        match dictGet? g k with
        | some l => some (l ++ (ps.filter (fun ie => edgeKey ie.2 = k)).map Prod.fst)
        | none =>
            if (ps.filter (fun ie => edgeKey ie.2 = k)).map Prod.fst = [] then none
            else some ((ps.filter (fun ie => edgeKey ie.2 = k)).map Prod.fst) := by
  intro ps
  induction ps with
  | nil =>
      intro g
      simp only [groupsAux, List.filter_nil, List.map_nil]
      cases dictGet? g k <;> simp
  | cons ie rest ih =>
      intro g
      simp only [groupsAux]
      rw [ih]
      by_cases hk : edgeKey ie.2 = k
      · rw [show (ie :: rest).filter (fun ie => decide (edgeKey ie.2 = k)) =
            ie :: rest.filter (fun ie => decide (edgeKey ie.2 = k)) from by
          simp [List.filter_cons, hk]]
        rw [hk, insertGroup_get_self g k ie.1]
        cases hg : dictGet? g k with
        | some l => simp [dictGetD, hg]
        | none => simp [dictGetD, hg]
      · rw [show (ie :: rest).filter (fun ie => decide (edgeKey ie.2 = k)) =
            rest.filter (fun ie => decide (edgeKey ie.2 = k)) from by
          simp [List.filter_cons, hk]]
        rw [insertGroup_get_ne g (edgeKey ie.2) k ie.1 (fun he => hk he.symm)]

theorem buildGroups_get (es : List Edge0) (k : Str × Str)
    (hne : (es.enum.filter (fun ie => edgeKey ie.2 = k)).map Prod.fst ≠ []) :
    dictGet? (buildGroups es) k =
      some ((es.enum.filter (fun ie => edgeKey ie.2 = k)).map Prod.fst) := by
  unfold buildGroups
  rw [groupsAux_get k es.enum []]
  simp only [dictGet?]
  rw [if_neg hne]

theorem finalizeEdge_at (es : List Edge0) (k : Str × Str) (i : Nat) (e : Edge0)
    (hk : edgeKey e = k)
    (hne : (es.enum.filter (fun ie => edgeKey ie.2 = k)).map Prod.fst ≠ []) :
    (finalizeEdge (buildGroups es) i e).bundle_n =
      ((es.enum.filter (fun ie => edgeKey ie.2 = k)).map Prod.fst).length ∧
    (finalizeEdge (buildGroups es) i e).bundle_idx =
      ((es.enum.filter (fun ie => edgeKey ie.2 = k)).map Prod.fst).indexOf i := by
  have hg := buildGroups_get es k hne
  constructor <;> simp [finalizeEdge, dictGetD, hk, hg]

theorem indexOf_map_self : ∀ (l : List Nat), l.Nodup →
    l.map (fun a => l.indexOf a) = List.range l.length
  | [], _ => rfl
  | x :: xs, h => by
      obtain ⟨hx, hxs⟩ := List.nodup_cons.mp h
      have step : xs.map (fun a => (x :: xs).indexOf a) =
          xs.map (fun a => xs.indexOf a + 1) := by
        refine List.map_congr_left ?_
        intro a ha
        have hxa : x ≠ a := fun he => hx (he ▸ ha)
        rw [List.indexOf_cons_ne _ hxa]
      rw [List.map_cons, List.indexOf_cons_self, step, List.length_cons,
        List.range_succ_eq_map]
      congr 1
      rw [show xs.map (fun a => xs.indexOf a + 1) =
          (xs.map (fun a => xs.indexOf a)).map (fun n => n + 1) from
        (List.map_map _ _ _).symm]
      rw [indexOf_map_self xs hxs]

theorem assignBundles_filter (es : List Edge0) (k : Str × Str) :
    (assignBundles es).filter (fun e => (e.source, e.target) = k) =
      (es.enum.filter (fun ie => edgeKey ie.2 = k)).map
        (fun ie => finalizeEdge (buildGroups es) ie.1 ie.2) := by
  unfold assignBundles
  rw [List.filter_map]
  rfl

theorem assignBundles_bundle (es : List Edge0) (k : Str × Str) :
    (∀ e ∈ (assignBundles es).filter (fun e => (e.source, e.target) = k),
      e.bundle_n =
        ((assignBundles es).filter (fun e => (e.source, e.target) = k)).length) ∧
    ((assignBundles es).filter (fun e => (e.source, e.target) = k)).map
        Edge.bundle_idx =
      List.range
        ((assignBundles es).filter (fun e => (e.source, e.target) = k)).length := by
  have hfil := assignBundles_filter es k
  have hnodup : ((es.enum.filter (fun ie => edgeKey ie.2 = k)).map Prod.fst).Nodup := by
    have h1 : ((es.enum.filter (fun ie => edgeKey ie.2 = k)).map Prod.fst).Sublist
        (es.enum.map Prod.fst) := (List.filter_sublist _).map _
    rw [List.enum_map_fst] at h1
    exact List.Nodup.sublist h1 (List.nodup_range _)
  constructor
  · intro e he
    rw [hfil] at he ⊢
    obtain ⟨ie, hieF, rfl⟩ := List.mem_map.mp he
    have hk : edgeKey ie.2 = k := by
      have := (List.mem_filter.mp hieF).2
      simpa using this
    have hne : (es.enum.filter (fun ie => edgeKey ie.2 = k)).map Prod.fst ≠ [] := by
      simp only [ne_eq, List.map_eq_nil_iff]
      intro h0
      rw [h0] at hieF
      simp at hieF
    rw [(finalizeEdge_at es k ie.1 ie.2 hk hne).1, List.length_map, List.length_map]
  · rw [hfil, List.map_map, List.length_map]
    by_cases hF : es.enum.filter (fun ie => edgeKey ie.2 = k) = []
    · rw [hF]; rfl
    · have hne : (es.enum.filter (fun ie => edgeKey ie.2 = k)).map Prod.fst ≠ [] := by
        simpa [List.map_eq_nil_iff] using hF
      have hcongr : ∀ ie ∈ es.enum.filter (fun ie => edgeKey ie.2 = k),
          (Edge.bundle_idx ∘ fun ie => finalizeEdge (buildGroups es) ie.1 ie.2) ie =
            ((es.enum.filter (fun ie => edgeKey ie.2 = k)).map Prod.fst).indexOf
              ie.1 := by
        intro ie hieF
        have hk : edgeKey ie.2 = k := by
          have := (List.mem_filter.mp hieF).2
          simpa using this
        exact (finalizeEdge_at es k ie.1 ie.2 hk hne).2
      rw [List.map_congr_left hcongr]
      rw [show (es.enum.filter (fun ie => edgeKey ie.2 = k)).map
            (fun ie => ((es.enum.filter (fun ie => edgeKey ie.2 = k)).map
              Prod.fst).indexOf ie.1) =
          ((es.enum.filter (fun ie => edgeKey ie.2 = k)).map Prod.fst).map
            (fun i => ((es.enum.filter (fun ie => edgeKey ie.2 = k)).map
              Prod.fst).indexOf i) from by rw [List.map_map]; rfl]
      rw [indexOf_map_self _ hnodup, List.length_map]

/-! ### C6 — bundle indexing of parallel edges -/

/-- C6: among the edges emitted by `build_wiring`, the edges sharing any
`(source, target)` pair all carry `bundle_n` equal to that group's
cardinality, and their `bundle_idx` fields, read in emission order, are
exactly `0, 1, ..., n-1` — each index used once, assigned in the order the
edges were emitted. -/
theorem bundle_indexing (fi : FileInfo) (db : EntityDb) (k : Str × Str) :
    (∀ e ∈ (build_wiring fi db).edges.filter (fun e => (e.source, e.target) = k),
      e.bundle_n = ((build_wiring fi db).edges.filter
        (fun e => (e.source, e.target) = k)).length) ∧
    ((build_wiring fi db).edges.filter (fun e => (e.source, e.target) = k)).map
        Edge.bundle_idx =
      List.range ((build_wiring fi db).edges.filter
        (fun e => (e.source, e.target) = k)).length :=
  assignBundles_bundle (edges0Of fi db) k

/-- Demonstration of C6 on `fiC6`: the two parallel `inst::u1 → inst::u2`
edges carry `bundle_n = 2` and indices `0` and `1`. -/
theorem bundle_indexing_demo :
    (build_wiring fiC6 dbC6).edges.map
        (fun e => (e.source, e.target, e.bundle_n, e.bundle_idx)) =
      [("inst::u1".data, "inst::u2".data, 2, 0),
       ("inst::u1".data, "inst::u2".data, 2, 1)] := by decide

/-! ### C8 — instance pin lists -/

/-- C8 counterexample: on `fiC8` the instance `u1` has formals `b`, `a`, `m`
with resolved directions `in`, `in`, `inout`; the emitted node's pin lists
are `inputs = [b, a]` (port-map order, not sorted by name) and
`outputs = []`, and `m` appears in neither list, so the pin lists are
neither a partition of the formals nor sorted. -/
theorem instance_pin_lists_cex :
    ¬ specPinsSortedPartition (build_wiring fiC8 dbC8) u1C8 := by
  unfold specPinsSortedPartition
  decide

/-- C8 (amended): for every instance of the unit, `build_wiring` emits a
node `inst::<label>` of kind `instance` whose `inputs` list holds the
formals whose resolved direction is `in` or unknown (unknown defaults to
the input side) and whose `outputs` list holds the formals resolved `out`
or `buffer`; both lists keep the port-map order (they are sublists of the
formal list, not sorted), and a formal with any other known direction
(e.g. `inout`) appears in neither list. -/
theorem instance_pin_lists_amended (fi : FileInfo) (db : EntityDb) (inst : Inst)
    (h : inst ∈ fi.instances) :
    ∃ n ∈ (build_wiring fi db).nodes,
      n.id = "inst::".data ++ inst.label ∧ n.kind = "instance".data ∧
      ∃ ins outs, n.inputs = some ins ∧ n.outputs = some outs ∧
        ins.Sublist (inst.port_map.map Prod.fst) ∧
        outs.Sublist (inst.port_map.map Prod.fst) ∧
        (∀ f, f ∈ ins ↔ f ∈ inst.port_map.map Prod.fst ∧
          dictGetD (dictGetD (instPortDirs fi db) inst.label []) f "in".data =
            "in".data) ∧
        (∀ f, f ∈ outs ↔ f ∈ inst.port_map.map Prod.fst ∧
          (dictGet? (dictGetD (instPortDirs fi db) inst.label []) f =
              some "out".data ∨
            dictGet? (dictGetD (instPortDirs fi db) inst.label []) f =
              some "buffer".data)) := by
  refine ⟨instNode (instPortDirs fi db) inst, ?_, rfl, rfl,
    (inst.port_map.map Prod.fst).filter (fun fp =>
      dictGetD (dictGetD (instPortDirs fi db) inst.label []) fp "in".data =
        "in".data),
    (inst.port_map.map Prod.fst).filter (fun fp =>
      dictGet? (dictGetD (instPortDirs fi db) inst.label []) fp =
          some "out".data ||
        dictGet? (dictGetD (instPortDirs fi db) inst.label []) fp =
          some "buffer".data),
    rfl, rfl, List.filter_sublist _, List.filter_sublist _, ?_, ?_⟩
  · show instNode (instPortDirs fi db) inst ∈
      fi.ports.map (entityPortNode (eportDirs fi)) ++
        fi.instances.map (instNode (instPortDirs fi db)) ++ netNodes (netsOf fi)
    exact List.mem_append.mpr (Or.inl (List.mem_append.mpr
      (Or.inr (List.mem_map_of_mem _ h))))
  · intro f
    simp [List.mem_filter]
  · intro f
    simp [List.mem_filter]

/-- Witness for the amended C8 at the concrete instance `u1` of `fiC8`. -/
theorem instance_pin_lists_amended_witness :
    ∃ n ∈ (build_wiring fiC8 dbC8).nodes,
      n.id = "inst::".data ++ u1C8.label ∧ n.kind = "instance".data ∧
      ∃ ins outs, n.inputs = some ins ∧ n.outputs = some outs ∧
        ins.Sublist (u1C8.port_map.map Prod.fst) ∧
        outs.Sublist (u1C8.port_map.map Prod.fst) ∧
        (∀ f, f ∈ ins ↔ f ∈ u1C8.port_map.map Prod.fst ∧
          dictGetD (dictGetD (instPortDirs fiC8 dbC8) u1C8.label []) f
            "in".data = "in".data) ∧
        (∀ f, f ∈ outs ↔ f ∈ u1C8.port_map.map Prod.fst ∧
          (dictGet? (dictGetD (instPortDirs fiC8 dbC8) u1C8.label []) f =
              some "out".data ∨
            dictGet? (dictGetD (instPortDirs fiC8 dbC8) u1C8.label []) f =
              some "buffer".data)) :=
  instance_pin_lists_amended fiC8 dbC8 u1C8 (by decide)

end VHDLViz
